import Mathlib

/-!
Shallow embedding of the change-reconciliation core of the
ssb-befolkning-fagfunksjoner repository: the KLASS change-mapping graph
engine (klass_utils/change_mapping.py), the municipality-code update and
partition logic (klass_utils/komm_nr.py, kommnr/update.py), and the
parquet file-versioning convention (versions/versions.py, versions/_versions.py).

Dates are embedded as natural numbers in YYYYMMDD form: ISO dates compare
exactly like their YYYYMMDD encodings, and the source only ever compares
dates. Dataframe contents in the versioning module are abstracted to a
natural number: the source only ever compares them for equality.
-/

namespace SSB

/-! ## Generic list helpers (kernel-computable sort and string order) -/

/-- Lexicographic order on char lists by Unicode code point, mirroring the
order Python uses when sorting strings. -/
def charsLe : List Char → List Char → Bool
  | [], _ => true
  | _ :: _, [] => false
  | a :: as, b :: bs =>
    if a.toNat < b.toNat then true
    else if a.toNat = b.toNat then charsLe as bs
    else false

/-- Order on strings used to model Python sorted() over strings. -/
def strLe (a b : String) : Bool := charsLe a.toList b.toList

/-- Insert an element into a list in front of the first element it is le to. -/
def insertSorted {α : Type} (le : α → α → Bool) (a : α) : List α → List α
  | [] => [a]
  | b :: bs => if le a b then a :: b :: bs else b :: insertSorted le a bs

/-- Stable insertion sort; models Python sorted() (stable, ascending). -/
def insSort {α : Type} (le : α → α → Bool) : List α → List α
  | [] => []
  | a :: as => insertSorted le a (insSort le as)

/-- Last-wins association-list lookup, modelling a Python dict built by
repeated assignment (a later binding of the same key shadows an earlier one). -/
def dictGet {α β : Type} [DecidableEq α] (l : List (α × β)) (k : α) : Option β :=
  (l.reverse.find? (fun p => p.1 = k)).map (fun p => p.2)

theorem insertSorted_perm {α : Type} (le : α → α → Bool) (a : α) :
    ∀ l : List α, (insertSorted le a l).Perm (a :: l) := by
  intro l
  induction l with
  | nil => simp [insertSorted]
  | cons b bs ih =>
    simp only [insertSorted]
    by_cases h : le a b = true
    · simp [h]
    · rw [if_neg h]
      exact List.Perm.trans (List.Perm.cons b ih) (List.Perm.swap a b bs)

theorem insSort_perm {α : Type} (le : α → α → Bool) :
    ∀ l : List α, (insSort le l).Perm l := by
  intro l
  induction l with
  | nil => simp [insSort]
  | cons a as ih =>
    exact List.Perm.trans (insertSorted_perm le a (insSort le as)) (List.Perm.cons a ih)

theorem mem_insSort {α : Type} (le : α → α → Bool) (x : α) (l : List α) :
    x ∈ insSort le l ↔ x ∈ l :=
  (insSort_perm le l).mem_iff

/-! ## Directed graph over code points (the networkx.DiGraph used by the source)

The source stores one attribute per edge, the cession type, which is None
until the labelling pass runs. A DiGraph has no parallel edges: re-adding
an existing edge only replaces its attribute. Nodes are exactly the
endpoints of edges, since the source only ever calls add_edge. -/

/-- A classification code at a specific classification version
(class _CodePoint in change_mapping.py). -/
structure CodePoint where
  code : String
  version : Nat
deriving DecidableEq, Repr

/-- The cession-type tag inferred for each edge (class _CessionType). -/
inductive CessionType where
  | NO_CESSION
  | CESSATION_WHOLE
  | CESSATION_PART_TO_NEW
  | CESSATION_PART_TO_EXISTING
  | ADJUSTMENT_PART_TO_NEW
  | ADJUSTMENT_PART_TO_EXISTING
  | BORDER_CHANGE
deriving DecidableEq, Repr

/-- Directed graph with one optional cession-type attribute per edge. -/
structure DiGraph where
  edges : List ((CodePoint × CodePoint) × Option CessionType)
deriving DecidableEq, Repr

def DiGraph.empty : DiGraph := ⟨[]⟩

/-- networkx add_edge: replaces the attribute when the edge exists, appends otherwise. -/
def addEdge (g : DiGraph) (u v : CodePoint) (a : Option CessionType) : DiGraph :=
  if g.edges.any (fun e => e.1 = (u, v)) then
    ⟨g.edges.map (fun e => if e.1 = (u, v) then ((u, v), a) else e)⟩
  else
    ⟨g.edges ++ [((u, v), a)]⟩

def hasEdge (g : DiGraph) (u v : CodePoint) : Bool :=
  g.edges.any (fun e => e.1 = (u, v))

/-- Node list of the graph: all edge endpoints. -/
def nodesOf (g : DiGraph) : List CodePoint :=
  (g.edges.flatMap (fun e => [e.1.1, e.1.2])).dedup

/-- Successors of a node along an explicit edge list. -/
def succsIn (es : List ((CodePoint × CodePoint) × Option CessionType))
    (v : CodePoint) : List CodePoint :=
  (es.filter (fun e => e.1.1 = v)).map (fun e => e.1.2)

/-- Predecessors of a node along an explicit edge list. -/
def predsIn (es : List ((CodePoint × CodePoint) × Option CessionType))
    (u : CodePoint) : List CodePoint :=
  (es.filter (fun e => e.1.2 = u)).map (fun e => e.1.1)

def successors (g : DiGraph) (v : CodePoint) : List CodePoint := succsIn g.edges v

def predecessors (g : DiGraph) (u : CodePoint) : List CodePoint := predsIn g.edges u

def outDegree (g : DiGraph) (v : CodePoint) : Nat := (successors g v).length

def inDegree (g : DiGraph) (u : CodePoint) : Nat := (predecessors g u).length

/-- Depth-first collection of reachable nodes (fuelled worklist). The set of
nodes produced equals the set visited by networkx dfs_preorder_nodes. -/
def reachAux (es : List ((CodePoint × CodePoint) × Option CessionType)) :
    Nat → List CodePoint → List CodePoint → List CodePoint
  | 0, visited, _ => visited
  | _ + 1, visited, [] => visited
  | fuel + 1, visited, x :: stack =>
    if x ∈ visited then reachAux es fuel visited stack
    else reachAux es fuel (visited ++ [x]) (succsIn es x ++ stack)

/-- All nodes reachable from a start node along an edge list, start included. -/
def reach (es : List ((CodePoint × CodePoint) × Option CessionType))
    (start : CodePoint) : List CodePoint :=
  reachAux es ((es.length + 2) * (2 * es.length + 2)) [] [start]

/-! ## KLASS data model (the slice of the klass client the engine consumes) -/

/-- Version metadata record as returned in classification.versions:
version id, validFrom, and optional validTo (absent key means open-ended). -/
structure VersionMeta where
  version_id : Nat
  validFrom : Nat
  validTo : Option Nat
deriving DecidableEq, Repr

/-- Correspondence-table reference carried by a version payload. -/
structure CorrTableMeta where
  id : Nat
  sourceId : Nat
  targetId : Nat
deriving DecidableEq, Repr

/-- One row of a fetched correspondence table; either code may be null. -/
structure CorrRow where
  sourceCode : Option String
  targetCode : Option String
deriving DecidableEq, Repr

/-- A fetched correspondence table (klass.KlassCorrespondence). -/
structure CorrTable where
  sourceId : Nat
  targetId : Nat
  correspondence : List CorrRow
deriving DecidableEq, Repr

/-- A fetched version payload (klass.KlassVersion): its own id, member codes,
and correspondence-table references. -/
structure KlassVersion where
  version_id : Nat
  classificationItems : List String
  correspondenceTables : List CorrTableMeta
deriving DecidableEq, Repr

/-- A classification object: version metadata plus fetchers for version
payloads and correspondence tables (the klass client collaborator). -/
structure KlassClassification where
  versions : List VersionMeta
  getVersion : Nat → KlassVersion
  getCorrespondence : Nat → CorrTable

/-- Function _dates_overlap: true when the version window overlaps the query
interval, by the rule (validTo is open or from_date < validTo) and
(to_date is open or validFrom <= to_date). -/
def dates_overlap (version : VersionMeta) (from_date : Nat) (to_date : Option Nat) : Bool :=
  (match version.validTo with
   | none => true
   | some v_to => decide (from_date < v_to)) &&
  (match to_date with
   | none => true
   | some t => decide (version.validFrom ≤ t))

/-! ## Graph construction (function _build_change_graph) -/

/-- The version-metadata records surviving the overlap filter. -/
def survivingMetas (c : KlassClassification) (from_date : Nat) (to_date : Option Nat) :
    List VersionMeta :=
  c.versions.filter (fun m => dates_overlap m from_date to_date)

/-- Surviving version ids (the versions_ids set). -/
def survivingIds (c : KlassClassification) (from_date : Nat) (to_date : Option Nat) :
    List Nat :=
  (survivingMetas c from_date to_date).map (fun m => m.version_id)

/-- The start_dates dict mapping version_id to validFrom, with Python
last-binding-wins semantics; a missing key yields 0 (callers only look up
ids present in the dict). -/
def startDateOf (metas : List VersionMeta) (vid : Nat) : Nat :=
  ((dictGet (metas.map (fun m => (m.version_id, m.validFrom))) vid).getD 0)

/-- Fetched version payloads of the surviving metas, sorted ascending by the
start date recorded for their version id (stable, like Python sorted). -/
def sortedVersions (c : KlassClassification) (from_date : Nat) (to_date : Option Nat) :
    List KlassVersion :=
  let metas := survivingMetas c from_date to_date
  insSort (fun v w => startDateOf metas v.version_id ≤ startDateOf metas w.version_id)
    (metas.map (fun m => c.getVersion m.version_id))

/-- Identity-edge pass: for each consecutive pair of sorted versions, add one
NO_CESSION edge per code present in both code sets. -/
def identityEdges (vs : List KlassVersion) (g : DiGraph) : DiGraph :=
  (vs.zip vs.tail).foldl
    (fun g p =>
      ((p.1.classificationItems.dedup).filter
          (fun code => p.2.classificationItems.contains code)).foldl
        (fun g code =>
          addEdge g ⟨code, p.1.version_id⟩ ⟨code, p.2.version_id⟩
            (some CessionType.NO_CESSION))
        g)
    g

/-- Correspondence-table collection: tables referenced by any surviving
version whose declared source and target ids are both surviving, fetched
once per table id (deduplicated by a seen set, in encounter order). -/
def collectTables (c : KlassClassification) (ids : List Nat)
    (vs : List KlassVersion) : List CorrTable :=
  (vs.foldl
    (fun (acc : List Nat × List CorrTable) v =>
      (v.correspondenceTables.filter
          (fun ct => ct.sourceId ∈ ids ∧ ct.targetId ∈ ids)).foldl
        (fun acc ct =>
          if ct.id ∈ acc.1 then acc
          else (acc.1 ++ [ct.id], acc.2 ++ [c.getCorrespondence ct.id]))
        acc)
    ([], [])).2

/-- Add the edges of one correspondence table. The table is stored backwards
exactly when the start date of its declared source version is strictly
later than that of its declared target version; then every edge is added
with source and target swapped. Rows with a null source or target code are
skipped. -/
def addCorrEdges (sd : Nat → Nat) (g : DiGraph) (t : CorrTable) : DiGraph :=
  let backwards := decide (sd t.sourceId > sd t.targetId)
  t.correspondence.foldl
    (fun g row =>
      match row.sourceCode, row.targetCode with
      | some s, some tc =>
        if backwards then addEdge g ⟨tc, t.targetId⟩ ⟨s, t.sourceId⟩ none
        else addEdge g ⟨s, t.sourceId⟩ ⟨tc, t.targetId⟩ none
      | _, _ => g)
    g

/-! ## Edge labelling (function _label_changes) -/

/-- The label computed for one unlabelled edge (v, u), as the if/elif chain
in _label_changes writes it. Degrees and neighbour code sets are taken on
the whole graph. -/
def labelEdge (g : DiGraph) (v u : CodePoint) : CessionType :=
  let out_degree := outDegree g v
  let in_degree := inDegree g u
  let old_codes := (predecessors g u).map (fun p => p.code)
  let new_codes := (successors g v).map (fun s => s.code)
  if in_degree = 1 ∧ out_degree = 1 then CessionType.NO_CESSION
  else if v.code = u.code then CessionType.BORDER_CHANGE
  else if out_degree = 1 then CessionType.CESSATION_WHOLE
  else if v.code ∉ new_codes ∧ u.code ∉ old_codes then CessionType.CESSATION_PART_TO_NEW
  else if v.code ∉ new_codes then CessionType.CESSATION_PART_TO_EXISTING
  else if u.code ∉ old_codes then CessionType.ADJUSTMENT_PART_TO_NEW
  else CessionType.ADJUSTMENT_PART_TO_EXISTING

/-- Labelling pass: every edge whose attribute is still None receives the
computed label; structure queries are unaffected since only attributes
change. -/
def label_changes (g : DiGraph) : DiGraph :=
  ⟨g.edges.map (fun e =>
    match e.2 with
    | some t => (e.1, some t)
    | none => (e.1, some (labelEdge g e.1.1 e.1.2)))⟩

/-- Function _build_change_graph: identity edges, correspondence edges, then
the labelling pass. -/
def build_change_graph (c : KlassClassification) (from_date : Nat)
    (to_date : Option Nat) : DiGraph :=
  let metas := survivingMetas c from_date to_date
  let ids := survivingIds c from_date to_date
  let vs := sortedVersions c from_date to_date
  let tables := collectTables c ids vs
  label_changes
    (tables.foldl (addCorrEdges (startDateOf metas)) (identityEdges vs DiGraph.empty))

/-! ## Rule-order presentation of the labelling chain (specification side,
compared against labelEdge for the precedence claim) -/

/-- First-match evaluation of an ordered rule list with a default. -/
def firstMatch : List (Bool × CessionType) → CessionType → CessionType
  | [], d => d
  | (c, l) :: rest, d => if c then l else firstMatch rest d

/-- The six guarded labelling rules, in the order the specification lists
them; the seventh case is the default. -/
def cessionRules (g : DiGraph) (v u : CodePoint) : List (Bool × CessionType) :=
  let old_codes := (predecessors g u).map (fun p => p.code)
  let new_codes := (successors g v).map (fun s => s.code)
  [ (decide (inDegree g u = 1 ∧ outDegree g v = 1), CessionType.NO_CESSION),
    (decide (v.code = u.code), CessionType.BORDER_CHANGE),
    (decide (outDegree g v = 1), CessionType.CESSATION_WHOLE),
    (decide (v.code ∉ new_codes ∧ u.code ∉ old_codes), CessionType.CESSATION_PART_TO_NEW),
    (decide (v.code ∉ new_codes), CessionType.CESSATION_PART_TO_EXISTING),
    (decide (u.code ∉ old_codes), CessionType.ADJUSTMENT_PART_TO_NEW) ]

/-! ## Target-date normalisation query (function get_klass_change_mapping) -/

/-- Errors get_klass_change_mapping can raise: ValueError with its message,
or the bare StopIteration escaping from next() on an exhausted iterator. -/
inductive KlassError where
  | valueError (msg : String)
  | stopIteration
deriving DecidableEq, Repr

/-- The message carried by an error; StopIteration carries none. -/
def KlassError.message : KlassError → Option String
  | KlassError.valueError m => some m
  | KlassError.stopIteration => none

/-- Python max over the validFrom dates of all versions; ValueError on an
empty sequence. -/
def maxValidFrom (c : KlassClassification) : Except KlassError Nat :=
  match c.versions with
  | [] => Except.error (KlassError.valueError "max() arg is an empty sequence")
  | v :: vs => Except.ok (vs.foldl (fun m w => max m w.validFrom) v.validFrom)

/-- Python min over the validFrom dates of all versions; ValueError on an
empty sequence. -/
def minValidFrom (c : KlassClassification) : Except KlassError Nat :=
  match c.versions with
  | [] => Except.error (KlassError.valueError "min() arg is an empty sequence")
  | v :: vs => Except.ok (vs.foldl (fun m w => min m w.validFrom) v.validFrom)

/-- target_date defaulting: the latest start date when not given. -/
def resolveTargetDate (c : KlassClassification) (target_date : Option Nat) :
    Except KlassError Nat :=
  match target_date with
  | some t => Except.ok t
  | none => maxValidFrom c

/-- from_date defaulting: the earliest start date when not given. -/
def resolveFromDate (c : KlassClassification) (from_date : Option Nat) :
    Except KlassError Nat :=
  match from_date with
  | some f => Except.ok f
  | none => minValidFrom c

/-- The first version-metadata record, in stored order, whose validity window
contains the target date (next(filter(...)) in the source). -/
def findTargetVersion (c : KlassClassification) (target_date : Nat) :
    Option VersionMeta :=
  c.versions.find? (fun m => dates_overlap m target_date (some target_date))

/-- The subgraph_view edge filter: drop ADJUSTMENT_PART_TO_EXISTING edges.
The node set of the view stays that of the full graph. -/
def viewEdgesOf (g : DiGraph) : List ((CodePoint × CodePoint) × Option CessionType) :=
  g.edges.filter (fun e => e.2 ≠ some CessionType.ADJUSTMENT_PART_TO_EXISTING)

/-- Lexicographic order on (old_code, new_code) pairs: the order produced by
sort_values() followed by a stable sort_index(). -/
def pairLe (p q : String × String) : Bool :=
  if p.1 = q.1 then strLe p.2 q.2 else strLe p.1 q.1

/-- The graph nodes belonging to the version valid on the target date (empty
when no version matches). -/
def targetCodePoints (c : KlassClassification) (target_date from_date : Nat)
    (to_date : Option Nat) : List CodePoint :=
  match findTargetVersion c target_date with
  | none => []
  | some tv =>
    (nodesOf (build_change_graph c from_date to_date)).filter
      (fun n => n.version = tv.version_id)

/-- The deduplicated correspondence set for one target version id: for every
node of the target version, every code reachable forwards (descendants) or
backwards (ancestors) in the filtered view, as an (old_code, new_code) pair. -/
def queryPairs (g : DiGraph) (tvid : Nat) : List (String × String) :=
  (((nodesOf g).filter (fun n => n.version = tvid)).flatMap (fun tcp =>
    (reach (viewEdgesOf g) tcp ++
      reach ((viewEdgesOf g).map (fun e => ((e.1.2, e.1.1), e.2))) tcp).map
      (fun scp => (scp.code, tcp.code)))).dedup

/-- The query body after date normalisation: build and filter the graph, find
the target version, traverse forwards and backwards from every target-version
node, and return the deduplicated (old_code, new_code) pairs sorted by value
then index. An empty correspondence set makes the strict unpacking raise. -/
def changeMappingCore (c : KlassClassification) (target_date from_date : Nat)
    (to_date : Option Nat) : Except KlassError (List (String × String)) :=
  match findTargetVersion c target_date with
  | none => Except.error KlassError.stopIteration
  | some tv =>
    if queryPairs (build_change_graph c from_date to_date) tv.version_id = [] then
      Except.error (KlassError.valueError "not enough values to unpack (expected 2, got 0)")
    else
      Except.ok (insSort pairLe
        (queryPairs (build_change_graph c from_date to_date) tv.version_id))

/-- Function get_klass_change_mapping: date defaulting, the target-older-
than-from check, then the query body. The result maps old codes (first
component, the series index) to new codes (second component). -/
def get_klass_change_mapping (c : KlassClassification)
    (target_date from_date to_date : Option Nat) :
    Except KlassError (List (String × String)) :=
  match resolveTargetDate c target_date with
  | Except.error e => Except.error e
  | Except.ok t =>
    match resolveFromDate c from_date with
    | Except.error e => Except.error e
    | Except.ok f =>
      if t < f then
        Except.error (KlassError.valueError
          "Target date older than from date, or older than KLASS classifcation")
      else changeMappingCore c t f to_date

/-! ## The four-version municipality fixture (tests/klass_utils/test_change_mapping.py) -/

/-- Version metadata of the Kommuneinndeling fixture, in the stored order of
the mocked classification.versions list. -/
def fixtureVersions : List VersionMeta :=
  [ ⟨5, 20260101, none⟩,
    ⟨4, 20240101, some 20260101⟩,
    ⟨3, 20230101, some 20240101⟩,
    ⟨1, 20190101, some 20200101⟩,
    ⟨2, 20200101, some 20220101⟩ ]

/-- Version payloads of the fixture (codes and correspondence-table
references per version id). -/
def fixtureGetVersion : Nat → KlassVersion
  | 1 => ⟨1, ["1504", "1523", "1529"], [⟨1, 2, 1⟩]⟩
  | 2 => ⟨2, ["1507"], [⟨2, 3, 2⟩, ⟨1, 2, 1⟩]⟩
  | 3 => ⟨3, ["1507"], [⟨3, 4, 3⟩, ⟨2, 3, 2⟩]⟩
  | 4 => ⟨4, ["1508", "1580", "3118", "3207", "3216"], [⟨4, 5, 4⟩, ⟨3, 4, 3⟩]⟩
  | 5 => ⟨5, ["3118", "3207", "3216"], [⟨4, 5, 4⟩]⟩
  | n => ⟨n, [], []⟩

/-- Correspondence tables of the fixture, by table id. Table 3 is declared
source 4, target 3 and table 1 source 2, target 1: both stored backwards. -/
def fixtureGetCorrespondence : Nat → CorrTable
  | 1 => ⟨2, 1, [⟨some "1507", some "1504"⟩, ⟨some "1507", some "1523"⟩,
                 ⟨some "1507", some "1529"⟩]⟩
  | 2 => ⟨3, 2, []⟩
  | 3 => ⟨4, 3, [⟨some "1508", some "1507"⟩, ⟨some "1580", some "1507"⟩]⟩
  | 4 => ⟨5, 4, [⟨some "3118", some "3118"⟩, ⟨some "3207", some "3118"⟩,
                 ⟨some "3207", some "3207"⟩, ⟨some "3216", some "3118"⟩,
                 ⟨some "3216", some "3216"⟩]⟩
  | _ => ⟨0, 0, []⟩

/-- The mocked Kommuneinndeling classification of the test suite. -/
def fixture : KlassClassification :=
  ⟨fixtureVersions, fixtureGetVersion, fixtureGetCorrespondence⟩

/-- The mapping the fixture must produce for a target date in version 4's
window (the first parametrized case of test_get_changes_mapping). -/
def fixtureExpected4 : List (String × String) :=
  [ ("1504", "1508"), ("1504", "1580"),
    ("1507", "1508"), ("1507", "1580"),
    ("1508", "1508"),
    ("1523", "1508"), ("1523", "1580"),
    ("1529", "1508"), ("1529", "1580"),
    ("1580", "1580") ]

/-! ## Municipality-code update logic (klass_utils/komm_nr.py) -/

/-- A cycle failure of the iterated latest-code resolution: the start code,
the revisited code, and the codes visited before the revisit (sorted, as the
message interpolates sorted(seen)). -/
structure CycleError where
  startCode : String
  revisited : String
  seen : List String
deriving DecidableEq, Repr

/-- Resolution loop of _get_latest_komm_nr: while the code is a key, fail if
it was already visited, otherwise record it and follow the mapping. The fuel
only bounds the loop; getLatestKommNrFuelSufficient shows it never runs out
at the fuel used by get_latest_komm_nr. -/
def resolveAux (dict : List (String × String)) (startCode : String) :
    Nat → List String → String → Option (Except CycleError String)
  | 0, _, _ => none
  | fuel + 1, seen, code =>
    match dictGet dict code with
    | none => some (Except.ok code)
    | some next =>
      if code ∈ seen then
        some (Except.error ⟨startCode, code, insSort strLe seen⟩)
      else resolveAux dict startCode fuel (code :: seen) next

/-- Function _get_latest_komm_nr: iterated lookup with cycle detection. -/
def get_latest_komm_nr (dict : List (String × String)) (code : String) :
    Except CycleError String :=
  (resolveAux dict code (dict.length + 1) [] code).getD (Except.ok code)

/-- The variant _get_latest_kommnr in kommnr/update.py, which tracks no
visited set: while the code is a key, follow the mapping. Modelled with
fuel; none means the loop has not finished within the given fuel. -/
def kommnrLoop (dict : List (String × String)) : Nat → String → Option String
  | 0, _ => none
  | fuel + 1, code =>
    match dictGet dict code with
    | none => some code
    | some next => kommnrLoop dict fuel next

/-- Whether the old code of a row is a duplicated index label of the
post-drop change series (pandas duplicated keep=False: the label occurs in
at least two rows). -/
def isSplitRow (series : List (String × String)) (r : String × String) : Bool :=
  decide (2 ≤ (series.filter (fun r2 => r2.1 ≠ r2.2)).countP (fun r2 => r2.1 = r.1))

/-- Partition step of get_komm_nr_changes on the change series: drop rows
whose old code equals their new code, then split the remainder on whether
the old code is a duplicated index label. Returns (clean changes, splits),
rows as (old_code, new_code). -/
def get_komm_nr_changes (series : List (String × String)) :
    List (String × String) × List (String × String) :=
  ((series.filter (fun r => r.1 ≠ r.2)).filter (fun r => !isSplitRow series r),
   (series.filter (fun r => r.1 ≠ r.2)).filter (fun r => isSplitRow series r))

/-- The distinct new codes a given old code maps to in the post-drop
remainder of a change series. -/
def newCodesFor (series : List (String × String)) (old : String) : List String :=
  (((series.filter (fun r => r.1 ≠ r.2)).filter (fun r => r.1 = old)).map
    (fun r => r.2)).dedup

/-- Errors update_komm_nr can raise: a cycle in the change dict, or the
validation failure listing the codes missing from the official list. -/
inductive UpdateError where
  | cycle (e : CycleError)
  | invalidCodes (codes : List String)
deriving DecidableEq, Repr

/-- Map the resolution over a list of codes, propagating the first cycle
failure, as pandas Series.map propagates the exception of the mapped
function. -/
def mapResolve (dict : List (String × String)) :
    List String → Except CycleError (List String)
  | [] => Except.ok []
  | c :: cs =>
    match get_latest_komm_nr dict c, mapResolve dict cs with
    | Except.error e, _ => Except.error e
    | Except.ok y, Except.ok ys => Except.ok (y :: ys)
    | Except.ok _, Except.error e => Except.error e

/-- The optional validate_komm_nr step at the end of update_komm_nr: when a
code list is supplied, fail with every updated code missing from it. -/
def applyValidation (validCodes : Option (List String)) (updated : List String) :
    Except UpdateError (List String) :=
  match validCodes with
  | none => Except.ok updated
  | some valid =>
    if (updated.filter (fun c => !valid.contains c)).dedup = [] then Except.ok updated
    else Except.error (UpdateError.invalidCodes
      (insSort strLe ((updated.filter (fun c => !valid.contains c)).dedup)))

/-- Function update_komm_nr with the externally fetched inputs made explicit:
the clean-changes dict and, when validation is on, the official code list
for the year (validCodes = none models validate=False). Missing input
values are replaced by the sentinel "0000" before resolution. -/
def update_komm_nr (original_codes : List (Option String))
    (dict : List (String × String)) (validCodes : Option (List String)) :
    Except UpdateError (List String) :=
  match mapResolve dict (original_codes.map (fun c => c.getD "0000")) with
  | Except.error e => Except.error (UpdateError.cycle e)
  | Except.ok updated => applyValidation validCodes updated

/-! ## Parquet file versioning (versions/versions.py and versions/_versions.py)

The directory is a finite map from filename to dataframe content; contents
are abstracted to naturals since the source only compares them for
equality. The filepath argument is represented by its stem. -/

/-- Directory state: filename to content, unique names. -/
abbrev FS := List (String × Nat)

def fsRead (fs : FS) (name : String) : Option Nat :=
  (fs.find? (fun f => f.1 = name)).map (fun f => f.2)

def fsWrite (fs : FS) (name : String) (df : Nat) : FS :=
  if fs.any (fun f => f.1 = name) then
    fs.map (fun f => if f.1 = name then (name, df) else f)
  else fs ++ [(name, df)]

def fsRemove (fs : FS) (name : String) : FS :=
  fs.filter (fun f => f.1 ≠ name)

/-- UPath.rename: move the content under the new name. -/
def fsRename (fs : FS) (oldName newName : String) : FS :=
  match fsRead fs oldName with
  | none => fs
  | some df => fsWrite (fsRemove fs oldName) newName df

/-- Boolean list-prefix test on characters. -/
def listPrefixOfb : List Char → List Char → Bool
  | [], _ => true
  | _ :: _, [] => false
  | a :: as, b :: bs => a == b && listPrefixOfb as bs

/-- The maximal run of digits at the end of a name. -/
def trailingDigits (cs : List Char) : List Char :=
  (cs.reverse.takeWhile (fun c => c.isDigit)).reverse

def natOfDigits (ds : List Char) : Nat :=
  ds.foldl (fun n c => n * 10 + (c.toNat - 48)) 0

/-- Decimal rendering of a natural (the f-string interpolation of the
version number). -/
def natDigitsAux : Nat → Nat → List Char
  | 0, _ => []
  | fuel + 1, n =>
    if n < 10 then [Char.ofNat (48 + n)]
    else natDigitsAux fuel (n / 10) ++ [Char.ofNat (48 + n % 10)]

def natToStr (n : Nat) : String := String.mk (natDigitsAux (n + 1) n)

/-- Function get_version_number_from_filepath: the number captured by the
regex _v(digits)$ against a file stem, None when the stem has no such
suffix. -/
def get_version_number_from_filepath (stem : String) : Option Nat :=
  let cs := stem.toList
  let ds := trailingDigits cs
  let pre := cs.take (cs.length - ds.length)
  if ds ≠ [] ∧ pre.reverse.take 2 = ['v', '_'] then some (natOfDigits ds)
  else none

/-- The re.sub of _v(digits)$ by the empty string in get_glob_pattern. -/
def stripVersionSuffix (stem : String) : String :=
  let cs := stem.toList
  let ds := trailingDigits cs
  let pre := cs.take (cs.length - ds.length)
  if ds ≠ [] ∧ pre.reverse.take 2 = ['v', '_'] then
    String.mk (pre.take (pre.length - 2))
  else stem

/-- UPath.stem of a globbed file: the name without its .parquet extension
(every globbed name carries it). -/
def fileStem (name : String) : String :=
  let cs := name.toList
  if cs.reverse.take 8 = (".parquet".toList).reverse then
    String.mk (cs.take (cs.length - 8))
  else name

/-- Whether a filename matches the glob pattern base*.parquet. -/
def matchesGlob (base : String) (name : String) : Bool :=
  let b := base.toList
  let n := name.toList
  listPrefixOfb b n && n.reverse.take 8 = (".parquet".toList).reverse &&
    decide (b.length + 8 ≤ n.length)

/-- Function get_list_of_versioned_files: the directory entries matching the
glob pattern derived from the stem. -/
def get_list_of_versioned_files (fs : FS) (stem : String) : List String :=
  (fs.map (fun f => f.1)).filter (matchesGlob (stripVersionSuffix stem))

/-- Function get_latest_version_number: 0 when no file matches, otherwise
the maximum parsed version number with unsuffixed files counting as 1. -/
def get_latest_version_number (fs : FS) (stem : String) : Nat :=
  let files := get_list_of_versioned_files fs stem
  if files = [] then 0
  else (files.map (fun n => (get_version_number_from_filepath (fileStem n)).getD 1)).foldl
    max 0

/-- Function get_next_version_number: one more than the latest. -/
def get_next_version_number (fs : FS) (stem : String) : Nat :=
  get_latest_version_number fs stem + 1

/-- Failures of write_versioned_pandas: a version suffix in the input path,
or the unversioned file missing when a rename to _v1 is due. -/
inductive WriteError where
  | versionedFilepath
  | runtimeMissingLatest
deriving DecidableEq, Repr

/-- Function write_versioned_pandas: first write creates the unversioned
file; a rewrite of identical content short-circuits; otherwise the
unversioned file is promoted to _v1 on the second write, the new content is
written under the next version suffix, and the unversioned file is
rewritten with the new content. -/
def write_versioned_pandas (fs : FS) (stem : String) (df : Nat) :
    Except WriteError FS :=
  if (get_version_number_from_filepath stem).isSome then
    Except.error WriteError.versionedFilepath
  else
    let next_version_number := get_next_version_number fs stem
    let latest := stem ++ ".parquet"
    if next_version_number = 1 then Except.ok (fsWrite fs latest df)
    else
      match fsRead fs latest with
      | some existing =>
        if existing = df then Except.ok fs
        else
          let fs1 :=
            if next_version_number = 2 then
              fsRename fs latest (stem ++ "_v1.parquet")
            else fs
          let fs2 :=
            fsWrite fs1 (stem ++ "_v" ++ natToStr next_version_number ++ ".parquet") df
          Except.ok (fsWrite fs2 latest df)
      | none =>
        if next_version_number = 2 then Except.error WriteError.runtimeMissingLatest
        else
          let fs2 :=
            fsWrite fs (stem ++ "_v" ++ natToStr next_version_number ++ ".parquet") df
          Except.ok (fsWrite fs2 latest df)

/-! ## Helper lemmas -/

theorem foldl_pres {α β : Type} (P : β → Prop) (f : β → α → β) :
    ∀ l : List α, (∀ b, ∀ a ∈ l, P b → P (f b a)) → ∀ b, P b → P (l.foldl f b) := by
  intro l
  induction l with
  | nil => intro _ b hb; exact hb
  | cons a as ih =>
    intro h b hb
    exact ih (fun b' a' ha' => h b' a' (List.mem_cons_of_mem a ha'))
      (f b a) (h b a (List.mem_cons_self a as) hb)

theorem foldl_mem_establish {α β : Type} (Q : β → Prop) (f : β → α → β)
    (hpres : ∀ b a, Q b → Q (f b a)) (x : α) (hx : ∀ b, Q (f b x)) :
    ∀ l : List α, ∀ b : β, x ∈ l → Q (l.foldl f b) := by
  intro l
  induction l with
  | nil => intro b hmem; exact absurd hmem (List.not_mem_nil x)
  | cons a as ih =>
    intro b hmem
    rcases List.mem_cons.mp hmem with h | h
    · subst h
      exact foldl_pres Q f as (fun b' a' _ => hpres b' a') (f b x) (hx b)
    · exact ih (f b a) h

theorem foldl_filter_eq {α β : Type} (p : α → Bool) (f : β → α → β)
    (h : ∀ b a, p a = false → f b a = b) :
    ∀ l : List α, ∀ b : β, (l.filter p).foldl f b = l.foldl f b := by
  intro l
  induction l with
  | nil => intro b; rfl
  | cons a as ih =>
    intro b
    cases hp : p a with
    | true => rw [List.filter_cons_of_pos hp]; exact ih (f b a)
    | false => rw [List.filter_cons_of_neg (by simp [hp]), List.foldl_cons, h b a hp]; exact ih b

theorem nodup_subset_length {α : Type} [DecidableEq α] (l₁ l₂ : List α)
    (h₁ : l₁.Nodup) (h₂ : ∀ x ∈ l₁, x ∈ l₂) : l₁.length ≤ l₂.dedup.length := by
  rw [← List.toFinset_card_of_nodup h₁, ← List.card_toFinset]
  exact Finset.card_le_card (fun x hx => List.mem_toFinset.mpr (h₂ x (List.mem_toFinset.mp hx)))

theorem dictGet_some_mem {α β : Type} [DecidableEq α] (l : List (α × β)) (k : α) (v : β)
    (h : dictGet l k = some v) : k ∈ l.map Prod.fst := by
  unfold dictGet at h
  cases hf : l.reverse.find? (fun p => p.1 = k) with
  | none => rw [hf] at h; exact absurd h (by simp)
  | some p =>
    have hp := List.find?_some hf
    have hmem := List.mem_reverse.mp (List.mem_of_find?_eq_some hf)
    have : p.1 = k := by simpa using hp
    exact this ▸ List.mem_map_of_mem Prod.fst hmem

/-! ## C7: target date older than from date fails with ValueError -/

/-- C7: for every call to get_klass_change_mapping, with defaults applied
(target_date defaulting to the latest start date and from_date to the
earliest), if the resolved target date is strictly older than the resolved
from date the function fails with the invalid-argument ValueError. -/
theorem C7_target_older_than_from (c : KlassClassification)
    (target_date from_date to_date : Option Nat) (t f : Nat)
    (ht : resolveTargetDate c target_date = Except.ok t)
    (hf : resolveFromDate c from_date = Except.ok f)
    (hlt : t < f) :
    get_klass_change_mapping c target_date from_date to_date =
      Except.error (KlassError.valueError
        "Target date older than from date, or older than KLASS classifcation") := by
  unfold get_klass_change_mapping
  rw [ht, hf]
  dsimp only
  rw [if_pos hlt]

theorem C7_witness :
    get_klass_change_mapping fixture (some 20180101) none none =
      Except.error (KlassError.valueError
        "Target date older than from date, or older than KLASS classifcation") :=
  C7_target_older_than_from fixture (some 20180101) none none 20180101 20190101
    rfl rfl (by decide)

/-! ## C6: no version valid on the target date -/

/-- C6 counterexample: with a target date in the fixture's 2022 coverage gap
the query fails, but with the bare StopIteration escaping from next() on the
exhausted filter iterator, which carries no message at all, not with a
descriptive no-version-valid-on-date error. -/
theorem C6_counterexample :
    get_klass_change_mapping fixture (some 20220601) none none =
      Except.error KlassError.stopIteration ∧
    KlassError.message KlassError.stopIteration = none :=
  ⟨rfl, rfl⟩

/-- C6 amended: for every call of get_klass_change_mapping whose resolved
dates pass the precondition check, if no version's validity window contains
the target date the query fails, by raising the bare StopIteration from the
strict next() on the empty filter iterator (not a descriptive error). -/
theorem C6_no_version_raises_stopiteration (c : KlassClassification)
    (target_date from_date to_date : Option Nat) (t f : Nat)
    (ht : resolveTargetDate c target_date = Except.ok t)
    (hf : resolveFromDate c from_date = Except.ok f)
    (hge : f ≤ t)
    (hnone : findTargetVersion c t = none) :
    get_klass_change_mapping c target_date from_date to_date =
      Except.error KlassError.stopIteration := by
  unfold get_klass_change_mapping
  rw [ht, hf]
  dsimp only
  rw [if_neg (Nat.not_lt.mpr hge)]
  unfold changeMappingCore
  rw [hnone]

theorem C6_witness :
    get_klass_change_mapping fixture (some 20220601) none none =
      Except.error KlassError.stopIteration :=
  C6_no_version_raises_stopiteration fixture (some 20220601) none none
    20220601 20190101 rfl rfl (by decide) rfl

/-! ## C9: versioned parquet writes on a fresh path -/

set_option maxHeartbeats 2000000 in
/-- C9: on a fresh path, the first write creates only the unversioned file;
rewriting equal content short-circuits and leaves that one file; writing
different content promotes the unversioned file to _v1 (preserving the old
content), writes the new content as _v2, and rewrites the unversioned file
with the new content; and the next version number is computed by scanning
matching files and incrementing the maximum suffix, an unsuffixed file
counting as version 1. -/
theorem C9_write_versioned_pandas (df df' : Nat) (hne : df ≠ df') :
    write_versioned_pandas [] "data" df = Except.ok [("data.parquet", df)] ∧
    write_versioned_pandas [("data.parquet", df)] "data" df =
      Except.ok [("data.parquet", df)] ∧
    write_versioned_pandas [("data.parquet", df)] "data" df' =
      Except.ok [("data_v1.parquet", df), ("data_v2.parquet", df'),
        ("data.parquet", df')] ∧
    get_next_version_number [("data.parquet", df)] "data" = 2 ∧
    get_next_version_number
      [("data_v1.parquet", df), ("data_v2.parquet", df'), ("data.parquet", df')]
      "data" = 3 := by
  refine ⟨rfl, ?_, ?_, rfl, rfl⟩
  · show (if df = df then Except.ok [("data.parquet", df)]
      else Except.ok [("data_v1.parquet", df), ("data_v2.parquet", df),
        ("data.parquet", df)]) = Except.ok [("data.parquet", df)]
    rw [if_pos rfl]
  · show (if df = df' then Except.ok [("data.parquet", df)]
      else Except.ok [("data_v1.parquet", df), ("data_v2.parquet", df'),
        ("data.parquet", df')]) =
      Except.ok [("data_v1.parquet", df), ("data_v2.parquet", df'), ("data.parquet", df')]
    rw [if_neg hne]

theorem C9_witness :
    write_versioned_pandas [] "data" 7 = Except.ok [("data.parquet", 7)] ∧
    write_versioned_pandas [("data.parquet", 7)] "data" 7 =
      Except.ok [("data.parquet", 7)] ∧
    write_versioned_pandas [("data.parquet", 7)] "data" 9 =
      Except.ok [("data_v1.parquet", 7), ("data_v2.parquet", 9), ("data.parquet", 9)] ∧
    get_next_version_number [("data.parquet", 7)] "data" = 2 ∧
    get_next_version_number
      [("data_v1.parquet", 7), ("data_v2.parquet", 9), ("data.parquet", 9)]
      "data" = 3 :=
  C9_write_versioned_pandas 7 9 (by decide)

/-! ## C3 lemmas -/

theorem resolveAux_ok_fixpoint (dict : List (String × String)) (start : String) :
    ∀ fuel seen code c, resolveAux dict start fuel seen code = some (Except.ok c) →
      dictGet dict c = none := by
  intro fuel
  induction fuel with
  | zero => intro seen code c h; exact absurd h (by simp [resolveAux])
  | succ n ih =>
    intro seen code c h
    unfold resolveAux at h
    cases hd : dictGet dict code with
    | none =>
      rw [hd] at h
      simp only [Option.some.injEq, Except.ok.injEq] at h
      rw [← h]
      exact hd
    | some next =>
      rw [hd] at h
      dsimp only at h
      by_cases hs : code ∈ seen
      · rw [if_pos hs] at h
        simp at h
      · rw [if_neg hs] at h
        exact ih (code :: seen) next c h

theorem resolveAux_error_shape (dict : List (String × String)) (start : String) :
    ∀ fuel seen code e, resolveAux dict start fuel seen code = some (Except.error e) →
      e.startCode = start ∧ e.revisited ∈ e.seen ∧ dictGet dict e.revisited ≠ none := by
  intro fuel
  induction fuel with
  | zero => intro seen code e h; exact absurd h (by simp [resolveAux])
  | succ n ih =>
    intro seen code e h
    unfold resolveAux at h
    cases hd : dictGet dict code with
    | none =>
      rw [hd] at h
      simp at h
    | some next =>
      rw [hd] at h
      dsimp only at h
      by_cases hs : code ∈ seen
      · rw [if_pos hs] at h
        simp only [Option.some.injEq, Except.error.injEq] at h
        subst h
        refine ⟨rfl, ?_, ?_⟩
        · exact (mem_insSort strLe code seen).mpr hs
        · simp [hd]
      · rw [if_neg hs] at h
        exact ih (code :: seen) next e h

theorem resolveAux_isSome (dict : List (String × String)) (start : String) :
    ∀ fuel seen code, seen.Nodup → (∀ s ∈ seen, s ∈ dict.map Prod.fst) →
      (dict.map Prod.fst).dedup.length + 1 ≤ fuel + seen.length →
      (resolveAux dict start fuel seen code).isSome = true := by
  intro fuel
  induction fuel with
  | zero =>
    intro seen code hnd hsub hlen
    exact absurd (nodup_subset_length seen (dict.map Prod.fst) hnd hsub) (by omega)
  | succ n ih =>
    intro seen code hnd hsub hlen
    unfold resolveAux
    cases hd : dictGet dict code with
    | none => simp
    | some next =>
      dsimp only
      by_cases hs : code ∈ seen
      · rw [if_pos hs]; simp
      · rw [if_neg hs]
        refine ih (code :: seen) next (List.nodup_cons.mpr ⟨hs, hnd⟩) ?_ ?_
        · intro s hsm
          rcases List.mem_cons.mp hsm with rfl | hsm
          · exact dictGet_some_mem dict s next hd
          · exact hsub s hsm
        · simp only [List.length_cons]
          omega

/-- C3: iterated latest-code resolution in klass_utils/komm_nr.py either
reaches a fixed point (a code that is no key of the dict) or fails with a
cycle error naming the start code, the revisited code and the visited set;
on the dict mapping A to B and B to A, resolving A raises the cycle error.
The kommnr/update.py variant, by contrast, never terminates there: its loop
yields no result within any fuel bound. -/
theorem C3_cycle_detection :
    (∀ (dict : List (String × String)) (code : String),
      (∃ c, get_latest_komm_nr dict code = Except.ok c ∧ dictGet dict c = none) ∨
      (∃ e, get_latest_komm_nr dict code = Except.error e ∧
        e.startCode = code ∧ e.revisited ∈ e.seen ∧ dictGet dict e.revisited ≠ none)) ∧
    get_latest_komm_nr [("A", "B"), ("B", "A")] "A" =
      Except.error ⟨"A", "A", ["A", "B"]⟩ ∧
    (∀ fuel, kommnrLoop [("A", "B"), ("B", "A")] fuel "A" = none) := by
  refine ⟨?_, rfl, ?_⟩
  · intro dict code
    have hlen : (dict.map Prod.fst).dedup.length + 1 ≤ (dict.length + 1) + ([] : List String).length := by
      have h1 : (dict.map Prod.fst).dedup.length ≤ (dict.map Prod.fst).length :=
        (List.dedup_sublist (dict.map Prod.fst)).length_le
      simp only [List.length_map] at h1
      simp only [List.length_nil]
      omega
    have hs := resolveAux_isSome dict code (dict.length + 1) [] code List.nodup_nil
      (by intro s hsm; exact absurd hsm (List.not_mem_nil s)) hlen
    obtain ⟨r, hr⟩ := Option.isSome_iff_exists.mp hs
    have hval : get_latest_komm_nr dict code = r := by
      unfold get_latest_komm_nr
      rw [hr]
      rfl
    cases r with
    | ok c => exact Or.inl ⟨c, hval, resolveAux_ok_fixpoint dict code _ _ _ _ hr⟩
    | error e =>
      obtain ⟨h1, h2, h3⟩ := resolveAux_error_shape dict code _ _ _ _ hr
      exact Or.inr ⟨e, hval, h1, h2, h3⟩
  · have key : ∀ n (c : String), c = "A" ∨ c = "B" →
        kommnrLoop [("A", "B"), ("B", "A")] n c = none := by
      intro n
      induction n with
      | zero => intro c _; rfl
      | succ m ih =>
        intro c hc
        rcases hc with rfl | rfl
        · exact ih "B" (Or.inr rfl)
        · exact ih "A" (Or.inl rfl)
    intro fuel
    exact key fuel "A" (Or.inl rfl)

/-! ## C4: labelling precedence -/

/-- C4: the labelling chain equals first-match evaluation of the ordered rule
list with ADJUSTMENT_PART_TO_EXISTING as the default, and an unlabelled edge
whose head has in-degree 1 and whose tail has out-degree 1 is tagged
NO_CESSION regardless of any other matching condition (in particular even
when the two codes are equal, which would otherwise give BORDER_CHANGE). -/
theorem C4_rule_order :
    (∀ (g : DiGraph) (v u : CodePoint),
      labelEdge g v u =
        firstMatch (cessionRules g v u) CessionType.ADJUSTMENT_PART_TO_EXISTING) ∧
    (∀ (g : DiGraph) (e : (CodePoint × CodePoint) × Option CessionType),
      e ∈ g.edges → e.2 = none → inDegree g e.1.2 = 1 → outDegree g e.1.1 = 1 →
      (e.1, some CessionType.NO_CESSION) ∈ (label_changes g).edges) := by
  constructor
  · intro g v u
    unfold labelEdge cessionRules
    simp only [firstMatch, decide_eq_true_eq]
  · intro g e he hnone h1 h2
    unfold label_changes
    have hstep :
        (fun e : (CodePoint × CodePoint) × Option CessionType =>
          match e.2 with
          | some t => (e.1, some t)
          | none => (e.1, some (labelEdge g e.1.1 e.1.2))) e =
        (e.1, some CessionType.NO_CESSION) := by
      obtain ⟨p, a⟩ := e
      simp only at hnone
      subst hnone
      simp only
      unfold labelEdge
      simp only at h1 h2
      rw [if_pos ⟨h1, h2⟩]
    exact hstep ▸ List.mem_map_of_mem _ he

theorem C4_witness :
    (((⟨"0101", 1⟩ : CodePoint), (⟨"0101", 2⟩ : CodePoint)), some CessionType.NO_CESSION) ∈
      (label_changes ⟨[((⟨"0101", 1⟩, ⟨"0101", 2⟩), none)]⟩).edges :=
  C4_rule_order.2 ⟨[((⟨"0101", 1⟩, ⟨"0101", 2⟩), none)]⟩
    ((⟨"0101", 1⟩, ⟨"0101", 2⟩), none) (by decide) rfl (by decide) (by decide)

/-! ## C2 lemmas -/

theorem countP_eq_newCodesFor (series : List (String × String)) (hnd : series.Nodup)
    (old : String) :
    (series.filter (fun r => r.1 ≠ r.2)).countP (fun r2 => r2.1 = old) =
      (newCodesFor series old).length := by
  have hchanges : (series.filter (fun r => r.1 ≠ r.2)).Nodup := List.Nodup.filter _ hnd
  have hsub : ((series.filter (fun r => r.1 ≠ r.2)).filter (fun r => r.1 = old)).Nodup :=
    List.Nodup.filter _ hchanges
  have hmap : (((series.filter (fun r => r.1 ≠ r.2)).filter (fun r => r.1 = old)).map
      (fun r => r.2)).Nodup := by
    refine List.Nodup.map_on ?_ hsub
    intro x hx y hy hxy
    have hx1 : x.1 = old := by simpa using (List.mem_filter.mp hx).2
    have hy1 : y.1 = old := by simpa using (List.mem_filter.mp hy).2
    exact Prod.ext (hx1.trans hy1.symm) hxy
  unfold newCodesFor
  rw [List.dedup_eq_self.mpr hmap, List.length_map, List.countP_eq_length_filter]

/-- C2: the change-mapping series is produced without duplicate rows, and
get_komm_nr_changes first drops the rows whose old code equals their new
code, then sends every row whose old code maps to more than one distinct new
code to the splits result (and not to the clean changes), while rows whose
old code maps to exactly one new code land only in the clean changes. -/
theorem C2_split_partition :
    (∀ (c : KlassClassification) (t f : Nat) (to_date : Option Nat)
       (pairs : List (String × String)),
      changeMappingCore c t f to_date = Except.ok pairs → pairs.Nodup) ∧
    (∀ (series : List (String × String)) (r : String × String),
      r.1 = r.2 → r ∉ (get_komm_nr_changes series).1 ∧ r ∉ (get_komm_nr_changes series).2) ∧
    (∀ (series : List (String × String)), series.Nodup →
      ∀ r ∈ series.filter (fun r => r.1 ≠ r.2),
        (2 ≤ (newCodesFor series r.1).length →
          r ∈ (get_komm_nr_changes series).2 ∧ r ∉ (get_komm_nr_changes series).1) ∧
        ((newCodesFor series r.1).length = 1 →
          r ∈ (get_komm_nr_changes series).1 ∧ r ∉ (get_komm_nr_changes series).2)) := by
  refine ⟨?_, ?_, ?_⟩
  · intro c t f to_date pairs h
    unfold changeMappingCore at h
    cases hft : findTargetVersion c t with
    | none => rw [hft] at h; exact absurd h (by simp)
    | some tv =>
      rw [hft] at h
      dsimp only at h
      by_cases hq : queryPairs (build_change_graph c f to_date) tv.version_id = []
      · rw [if_pos hq] at h; exact absurd h (by simp)
      · rw [if_neg hq] at h
        simp only [Except.ok.injEq] at h
        subst h
        exact (insSort_perm pairLe _).symm.nodup (List.nodup_dedup _)
  · intro series r hr
    have hbase : r ∉ series.filter (fun r2 => r2.1 ≠ r2.2) := by
      intro hmem
      have h2 := (List.mem_filter.mp hmem).2
      simp only [decide_eq_true_eq] at h2
      exact h2 hr
    refine ⟨fun hmem => hbase ?_, fun hmem => hbase ?_⟩
    · exact (List.mem_filter.mp hmem).1
    · exact (List.mem_filter.mp hmem).1
  · intro series hnd r hr
    have hcount := countP_eq_newCodesFor series hnd r.1
    constructor
    · intro hge
      have hsplit : isSplitRow series r = true := by
        unfold isSplitRow
        rw [hcount]
        exact decide_eq_true hge
      refine ⟨List.mem_filter.mpr ⟨hr, hsplit⟩, fun hmem => ?_⟩
      have h2 := (List.mem_filter.mp hmem).2
      rw [hsplit] at h2
      simp at h2
    · intro heq
      have hsplit : isSplitRow series r = false := by
        unfold isSplitRow
        rw [hcount, heq]
        simp
      refine ⟨List.mem_filter.mpr ⟨hr, by simp [hsplit]⟩, fun hmem => ?_⟩
      have h2 := (List.mem_filter.mp hmem).2
      rw [hsplit] at h2
      simp at h2

theorem C2_witness :
    (("0301", "0302") ∈
       (get_komm_nr_changes
         [("0301", "0302"), ("0301", "0303"), ("0401", "0405"), ("0500", "0500")]).2 ∧
     ("0301", "0302") ∉
       (get_komm_nr_changes
         [("0301", "0302"), ("0301", "0303"), ("0401", "0405"), ("0500", "0500")]).1) ∧
    ("0401", "0405") ∈
       (get_komm_nr_changes
         [("0301", "0302"), ("0301", "0303"), ("0401", "0405"), ("0500", "0500")]).1 ∧
    ("0401", "0405") ∉
       (get_komm_nr_changes
         [("0301", "0302"), ("0301", "0303"), ("0401", "0405"), ("0500", "0500")]).2 := by
  have h := C2_split_partition.2.2
    [("0301", "0302"), ("0301", "0303"), ("0401", "0405"), ("0500", "0500")] (by decide)
  exact ⟨(h ("0301", "0302") (by decide)).1 (by decide),
         (h ("0401", "0405") (by decide)).2 (by decide)⟩

/-! ## C8 lemmas -/

theorem get_latest_komm_nr_ok_fixpoint (dict : List (String × String)) (code c : String)
    (h : get_latest_komm_nr dict code = Except.ok c) : dictGet dict c = none := by
  have hlen : (dict.map Prod.fst).dedup.length + 1 ≤
      (dict.length + 1) + ([] : List String).length := by
    have h1 : (dict.map Prod.fst).dedup.length ≤ (dict.map Prod.fst).length :=
      (List.dedup_sublist (dict.map Prod.fst)).length_le
    simp only [List.length_map, List.length_nil] at h1 ⊢
    omega
  have hs := resolveAux_isSome dict code (dict.length + 1) [] code List.nodup_nil
    (by intro s hsm; exact absurd hsm (List.not_mem_nil s)) hlen
  obtain ⟨r, hr⟩ := Option.isSome_iff_exists.mp hs
  unfold get_latest_komm_nr at h
  rw [hr] at h
  simp only [Option.getD_some] at h
  subst h
  exact resolveAux_ok_fixpoint dict code _ _ _ _ hr

theorem get_latest_komm_nr_of_not_key (dict : List (String × String)) (c : String)
    (h : dictGet dict c = none) : get_latest_komm_nr dict c = Except.ok c := by
  unfold get_latest_komm_nr resolveAux
  rw [h]
  rfl

theorem mapResolve_ok_mem (dict : List (String × String)) :
    ∀ (l ys : List String), mapResolve dict l = Except.ok ys →
      ∀ y ∈ ys, ∃ x, get_latest_komm_nr dict x = Except.ok y := by
  intro l
  induction l with
  | nil =>
    intro ys h y hy
    unfold mapResolve at h
    simp only [Except.ok.injEq] at h
    subst h
    exact absurd hy (List.not_mem_nil y)
  | cons x xs ih =>
    intro ys h y hy
    unfold mapResolve at h
    cases hx : get_latest_komm_nr dict x with
    | error e => rw [hx] at h; simp at h
    | ok v =>
      rw [hx] at h
      cases hr : mapResolve dict xs with
      | error e => rw [hr] at h; simp at h
      | ok vs =>
        rw [hr] at h
        simp only [Except.ok.injEq] at h
        subst h
        rcases List.mem_cons.mp hy with rfl | hy
        · exact ⟨x, hx⟩
        · exact ih vs hr y hy

theorem mapResolve_fixpoints (dict : List (String × String)) :
    ∀ l : List String, (∀ x ∈ l, get_latest_komm_nr dict x = Except.ok x) →
      mapResolve dict l = Except.ok l := by
  intro l
  induction l with
  | nil => intro _; rfl
  | cons x xs ih =>
    intro h
    unfold mapResolve
    rw [h x (List.mem_cons_self x xs), ih (fun y hy => h y (List.mem_cons_of_mem x hy))]

theorem update_komm_nr_of_ok (original_codes : List (Option String))
    (dict : List (String × String)) (validCodes : Option (List String))
    (updated : List String)
    (hm : mapResolve dict (original_codes.map (fun c => c.getD "0000")) =
      Except.ok updated) :
    update_komm_nr original_codes dict validCodes = applyValidation validCodes updated := by
  unfold update_komm_nr
  rw [hm]

theorem update_komm_nr_of_error (original_codes : List (Option String))
    (dict : List (String × String)) (validCodes : Option (List String))
    (e : CycleError)
    (hm : mapResolve dict (original_codes.map (fun c => c.getD "0000")) =
      Except.error e) :
    update_komm_nr original_codes dict validCodes =
      Except.error (UpdateError.cycle e) := by
  unfold update_komm_nr
  rw [hm]

theorem applyValidation_some (valid : List String) (updated : List String) :
    applyValidation (some valid) updated =
      if (updated.filter (fun c => !valid.contains c)).dedup = [] then Except.ok updated
      else Except.error (UpdateError.invalidCodes
        (insSort strLe ((updated.filter (fun c => !valid.contains c)).dedup))) := rfl

theorem applyValidation_ok (validCodes : Option (List String)) (updated out : List String)
    (h : applyValidation validCodes updated = Except.ok out) : updated = out := by
  cases validCodes with
  | none => simpa [applyValidation] using h
  | some valid =>
    rw [applyValidation_some] at h
    by_cases hinv : (updated.filter (fun c => !valid.contains c)).dedup = []
    · rw [if_pos hinv] at h; simpa using h
    · rw [if_neg hinv] at h; simp at h

/-- C8: update_komm_nr is idempotent: whenever a first application over a
fixed clean-changes dict (and fixed validation input) succeeds, applying it
again to the already-updated output returns that same output, because every
output code of the first application is a fixed point of the resolution and
missing values were already replaced by the 0000 sentinel. -/
theorem C8_update_idempotent (original_codes : List (Option String))
    (dict : List (String × String)) (validCodes : Option (List String))
    (out : List String)
    (h : update_komm_nr original_codes dict validCodes = Except.ok out) :
    update_komm_nr (out.map some) dict validCodes = Except.ok out := by
  cases hm : mapResolve dict (original_codes.map (fun c => c.getD "0000")) with
  | error e =>
    rw [update_komm_nr_of_error original_codes dict validCodes e hm] at h
    simp at h
  | ok updated =>
    rw [update_komm_nr_of_ok original_codes dict validCodes updated hm] at h
    have hupd : updated = out := applyValidation_ok validCodes updated out h
    rw [← hupd] at h ⊢
    have hsecond : mapResolve dict ((updated.map some).map (fun c => c.getD "0000")) =
        Except.ok updated := by
      have hfill : (updated.map some).map (fun c => c.getD "0000") = updated := by
        have hcomp : ((fun c : Option String => c.getD "0000") ∘ some) = id := by
          funext x
          rfl
        rw [List.map_map, hcomp, List.map_id]
      rw [hfill]
      refine mapResolve_fixpoints dict updated (fun y hy => ?_)
      obtain ⟨x, hx⟩ := mapResolve_ok_mem dict _ updated hm y hy
      exact get_latest_komm_nr_of_not_key dict y (get_latest_komm_nr_ok_fixpoint dict x y hx)
    rw [update_komm_nr_of_ok (updated.map some) dict validCodes updated hsecond]
    exact h

theorem C8_witness :
    update_komm_nr [some "1504", none] [("1504", "1507"), ("1507", "1508")]
      (some ["1508", "0000"]) = Except.ok ["1508", "0000"] ∧
    update_komm_nr [some "1508", some "0000"] [("1504", "1507"), ("1507", "1508")]
      (some ["1508", "0000"]) = Except.ok ["1508", "0000"] :=
  ⟨rfl, C8_update_idempotent [some "1504", none] [("1504", "1507"), ("1507", "1508")]
    (some ["1508", "0000"]) ["1508", "0000"] rfl⟩

/-! ## C10 lemmas -/

theorem reachAux_visited_subset (es : List ((CodePoint × CodePoint) × Option CessionType)) :
    ∀ fuel visited stack, ∀ v ∈ visited, v ∈ reachAux es fuel visited stack := by
  intro fuel
  induction fuel with
  | zero => intro visited stack v hv; simpa [reachAux] using hv
  | succ n ih =>
    intro visited stack v hv
    cases stack with
    | nil => simpa [reachAux] using hv
    | cons x rest =>
      unfold reachAux
      by_cases hx : x ∈ visited
      · rw [if_pos hx]
        exact ih _ _ v hv
      · rw [if_neg hx]
        exact ih _ _ v (List.mem_append_left _ hv)

theorem reach_start_mem (es : List ((CodePoint × CodePoint) × Option CessionType))
    (s : CodePoint) : s ∈ reach es s := by
  unfold reach
  have hpos : 0 < (es.length + 2) * (2 * es.length + 2) := by positivity
  rw [← Nat.succ_pred_eq_of_pos hpos]
  unfold reachAux
  rw [if_neg (List.not_mem_nil s)]
  exact reachAux_visited_subset es _ _ _ s (List.mem_singleton.mpr rfl)

theorem changeMappingCore_ne_ok_nil (c : KlassClassification) (t f : Nat)
    (to_date : Option Nat) : changeMappingCore c t f to_date ≠ Except.ok [] := by
  intro h
  unfold changeMappingCore at h
  cases hft : findTargetVersion c t with
  | none => rw [hft] at h; simp at h
  | some tv =>
    rw [hft] at h
    dsimp only at h
    by_cases hq : queryPairs (build_change_graph c f to_date) tv.version_id = []
    · rw [if_pos hq] at h
      simp at h
    · rw [if_neg hq] at h
      simp only [Except.ok.injEq] at h
      refine hq (List.length_eq_zero.mp ?_)
      rw [← (insSort_perm pairLe _).length_eq, h]
      rfl

/-- C10: get_klass_change_mapping never returns an empty mapping: when the
graph has no node of the target version the strict unpacking of the empty
correspondence set raises instead of returning an empty series (and a
missing target version already raises StopIteration); conversely a returned
mapping relates every target-version node at least to its own code, since
the depth-first traversal includes its start node. -/
theorem C10_never_empty :
    (∀ (c : KlassClassification) (t f : Nat) (to_date : Option Nat),
      targetCodePoints c t f to_date = [] →
        ∃ e, changeMappingCore c t f to_date = Except.error e) ∧
    (∀ (c : KlassClassification) (t f : Nat) (to_date : Option Nat)
       (pairs : List (String × String)),
      changeMappingCore c t f to_date = Except.ok pairs →
        pairs ≠ [] ∧ ∀ n ∈ targetCodePoints c t f to_date, (n.code, n.code) ∈ pairs) ∧
    (∀ (c : KlassClassification) (target_date from_date to_date : Option Nat),
      get_klass_change_mapping c target_date from_date to_date ≠ Except.ok []) := by
  refine ⟨?_, ?_, ?_⟩
  · intro c t f to_date h
    unfold targetCodePoints at h
    cases hft : findTargetVersion c t with
    | none =>
      refine ⟨KlassError.stopIteration, ?_⟩
      unfold changeMappingCore
      rw [hft]
    | some tv =>
      rw [hft] at h
      dsimp only at h
      have hq : queryPairs (build_change_graph c f to_date) tv.version_id = [] := by
        unfold queryPairs
        rw [h]
        rfl
      refine ⟨KlassError.valueError "not enough values to unpack (expected 2, got 0)", ?_⟩
      unfold changeMappingCore
      rw [hft]
      dsimp only
      rw [if_pos hq]
  · intro c t f to_date pairs h
    have hne : pairs ≠ [] := by
      intro hnil
      subst hnil
      exact changeMappingCore_ne_ok_nil c t f to_date h
    refine ⟨hne, ?_⟩
    intro n hn
    unfold targetCodePoints at hn
    unfold changeMappingCore at h
    cases hft : findTargetVersion c t with
    | none => rw [hft] at h; simp at h
    | some tv =>
      rw [hft] at h
      rw [hft] at hn
      dsimp only at h hn
      by_cases hq : queryPairs (build_change_graph c f to_date) tv.version_id = []
      · rw [if_pos hq] at h
        simp at h
      · rw [if_neg hq] at h
        simp only [Except.ok.injEq] at h
        subst h
        refine (mem_insSort pairLe _ _).mpr ?_
        unfold queryPairs
        refine List.mem_dedup.mpr (List.mem_flatMap.mpr ⟨n, hn, List.mem_map.mpr ?_⟩)
        exact ⟨n, List.mem_append_left _ (reach_start_mem _ n), rfl⟩
  · intro c target_date from_date to_date h
    unfold get_klass_change_mapping at h
    cases ht : resolveTargetDate c target_date with
    | error e => rw [ht] at h; simp at h
    | ok t =>
      rw [ht] at h
      cases hf : resolveFromDate c from_date with
      | error e => rw [hf] at h; simp at h
      | ok f =>
        rw [hf] at h
        dsimp only at h
        by_cases hlt : t < f
        · rw [if_pos hlt] at h
          simp at h
        · rw [if_neg hlt] at h
          exact changeMappingCore_ne_ok_nil c t f to_date h

theorem C10_witness :
    (("1508", "1508") : String × String) ∈ fixtureExpected4 :=
  ((C10_never_empty.2.1 fixture 20240101 20190101 (some 20250101) fixtureExpected4
    rfl).2 ⟨"1508", 4⟩ (by decide))

/-! ## C5 lemmas: versions outside the window contribute nothing -/

theorem edges_version_addEdge (ids : List Nat) (g : DiGraph) (u v : CodePoint)
    (a : Option CessionType)
    (hg : ∀ e ∈ g.edges, e.1.1.version ∈ ids ∧ e.1.2.version ∈ ids)
    (hu : u.version ∈ ids) (hv : v.version ∈ ids) :
    ∀ e ∈ (addEdge g u v a).edges, e.1.1.version ∈ ids ∧ e.1.2.version ∈ ids := by
  intro e he
  unfold addEdge at he
  by_cases hex : g.edges.any (fun e => e.1 = (u, v)) = true
  · rw [if_pos hex] at he
    obtain ⟨e0, he0, heq⟩ := List.mem_map.mp he
    by_cases h0 : e0.1 = (u, v)
    · rw [if_pos h0] at heq
      rw [← heq]
      exact ⟨hu, hv⟩
    · rw [if_neg h0] at heq
      rw [← heq]
      exact hg e0 he0
  · rw [if_neg hex] at he
    rcases List.mem_append.mp he with h | h
    · exact hg e h
    · rw [List.mem_singleton.mp h]
      exact ⟨hu, hv⟩

theorem edges_version_identityEdges (ids : List Nat) (vs : List KlassVersion)
    (hvs : ∀ v ∈ vs, v.version_id ∈ ids) (g : DiGraph)
    (hg : ∀ e ∈ g.edges, e.1.1.version ∈ ids ∧ e.1.2.version ∈ ids) :
    ∀ e ∈ (identityEdges vs g).edges, e.1.1.version ∈ ids ∧ e.1.2.version ∈ ids := by
  unfold identityEdges
  refine foldl_pres (fun b => ∀ e ∈ b.edges, e.1.1.version ∈ ids ∧ e.1.2.version ∈ ids)
    _ _ ?_ g hg
  intro b p hp hb
  obtain ⟨v1, v2⟩ := p
  have hz := List.of_mem_zip hp
  have h1 : v1.version_id ∈ ids := hvs v1 hz.1
  have h2 : v2.version_id ∈ ids := hvs v2 (List.mem_of_mem_tail hz.2)
  refine foldl_pres (fun b => ∀ e ∈ b.edges, e.1.1.version ∈ ids ∧ e.1.2.version ∈ ids)
    _ _ ?_ b hb
  intro b' code _ hb'
  exact edges_version_addEdge ids b' _ _ _ hb' h1 h2

theorem edges_version_addCorrEdges (ids : List Nat) (sd : Nat → Nat) (t : CorrTable)
    (hs : t.sourceId ∈ ids) (ht : t.targetId ∈ ids) (g : DiGraph)
    (hg : ∀ e ∈ g.edges, e.1.1.version ∈ ids ∧ e.1.2.version ∈ ids) :
    ∀ e ∈ (addCorrEdges sd g t).edges, e.1.1.version ∈ ids ∧ e.1.2.version ∈ ids := by
  unfold addCorrEdges
  refine foldl_pres (fun b => ∀ e ∈ b.edges, e.1.1.version ∈ ids ∧ e.1.2.version ∈ ids)
    _ _ ?_ g hg
  intro b row _ hb
  obtain ⟨rs, rt⟩ := row
  cases rs with
  | none => exact hb
  | some s =>
    cases rt with
    | none => exact hb
    | some tc =>
      dsimp only
      by_cases hback : sd t.targetId < sd t.sourceId
      · rw [if_pos (decide_eq_true hback)]
        exact edges_version_addEdge ids b _ _ _ hb ht hs
      · rw [if_neg (by simpa using hback)]
        exact edges_version_addEdge ids b _ _ _ hb hs ht

theorem collectTables_sound (c : KlassClassification) (ids : List Nat)
    (vs : List KlassVersion) :
    ∀ t ∈ collectTables c ids vs, ∃ v ∈ vs, ∃ ct ∈ v.correspondenceTables,
      (ct.sourceId ∈ ids ∧ ct.targetId ∈ ids) ∧ t = c.getCorrespondence ct.id := by
  unfold collectTables
  refine foldl_pres (fun acc : List Nat × List CorrTable => ∀ t ∈ acc.2,
      ∃ v ∈ vs, ∃ ct ∈ v.correspondenceTables,
        (ct.sourceId ∈ ids ∧ ct.targetId ∈ ids) ∧ t = c.getCorrespondence ct.id)
    _ _ ?_ ([], []) (by intro t htm; exact absurd htm (List.not_mem_nil t))
  intro acc v hvmem hacc
  refine foldl_pres (fun acc : List Nat × List CorrTable => ∀ t ∈ acc.2,
      ∃ v ∈ vs, ∃ ct ∈ v.correspondenceTables,
        (ct.sourceId ∈ ids ∧ ct.targetId ∈ ids) ∧ t = c.getCorrespondence ct.id)
    _ _ ?_ acc hacc
  intro acc' ct hct hacc'
  by_cases hseen : ct.id ∈ acc'.1
  · rw [if_pos hseen]
    exact hacc'
  · rw [if_neg hseen]
    intro t htm
    rcases List.mem_append.mp htm with h | h
    · exact hacc' t h
    · have hcond := List.mem_filter.mp hct
      refine ⟨v, hvmem, ct, hcond.1, ?_, List.mem_singleton.mp h⟩
      simpa using hcond.2

theorem sortedVersions_mem (c : KlassClassification) (f : Nat) (to_date : Option Nat) :
    ∀ v ∈ sortedVersions c f to_date,
      ∃ m ∈ survivingMetas c f to_date, v = c.getVersion m.version_id := by
  intro v hv
  unfold sortedVersions at hv
  obtain ⟨m, hm, heq⟩ := List.mem_map.mp ((mem_insSort _ _ _).mp hv)
  exact ⟨m, hm, heq.symm⟩

theorem label_changes_edge_pairs (g : DiGraph) :
    ∀ e ∈ (label_changes g).edges, ∃ e0 ∈ g.edges, e.1 = e0.1 := by
  intro e he
  unfold label_changes at he
  obtain ⟨e0, he0, heq⟩ := List.mem_map.mp he
  refine ⟨e0, he0, ?_⟩
  obtain ⟨p, a⟩ := e0
  cases a with
  | none => rw [← heq]
  | some t => rw [← heq]

/-- C5: a classification version is fetched for graph construction exactly
when its validity window overlaps the query interval under _dates_overlap,
and a version failing the test (whose id no overlapping version shares)
contributes no node at all to the built graph: every node version belongs to
a surviving version. The hypotheses hv and hct state that the klass client
returns payloads and correspondence tables consistent with their ids. -/
theorem C5_no_contribution_outside_window (c : KlassClassification) (f : Nat)
    (to_date : Option Nat) (m : VersionMeta)
    (hv : ∀ m' ∈ c.versions, (c.getVersion m'.version_id).version_id = m'.version_id)
    (hct : ∀ m' ∈ c.versions, ∀ ct ∈ (c.getVersion m'.version_id).correspondenceTables,
        (c.getCorrespondence ct.id).sourceId = ct.sourceId ∧
        (c.getCorrespondence ct.id).targetId = ct.targetId)
    (hm : m ∈ c.versions) (hno : dates_overlap m f to_date = false)
    (huniq : ∀ m' ∈ c.versions, m'.version_id = m.version_id → m' = m) :
    (nodesOf (build_change_graph c f to_date)).all
      (fun n => n.version ≠ m.version_id) = true := by
  have hvsids : ∀ v ∈ sortedVersions c f to_date,
      v.version_id ∈ survivingIds c f to_date := by
    intro v hvm
    obtain ⟨m', hm', rfl⟩ := sortedVersions_mem c f to_date v hvm
    rw [hv m' (List.mem_of_mem_filter hm')]
    exact List.mem_map.mpr ⟨m', hm', rfl⟩
  have hedges : ∀ e ∈ (build_change_graph c f to_date).edges,
      e.1.1.version ∈ survivingIds c f to_date ∧
      e.1.2.version ∈ survivingIds c f to_date := by
    intro e he
    unfold build_change_graph at he
    obtain ⟨e0, he0, h1⟩ := label_changes_edge_pairs _ e he
    have hbase : ∀ e ∈ ((collectTables c (survivingIds c f to_date)
        (sortedVersions c f to_date)).foldl
          (addCorrEdges (startDateOf (survivingMetas c f to_date)))
          (identityEdges (sortedVersions c f to_date) DiGraph.empty)).edges,
        e.1.1.version ∈ survivingIds c f to_date ∧
        e.1.2.version ∈ survivingIds c f to_date := by
      refine foldl_pres (fun b : DiGraph => ∀ e ∈ b.edges,
          e.1.1.version ∈ survivingIds c f to_date ∧
          e.1.2.version ∈ survivingIds c f to_date) _ _ ?_ _ ?_
      · intro b t htmem hb
        obtain ⟨v, hvm, ct, hctm, ⟨hs, hta⟩, rfl⟩ :=
          collectTables_sound c _ _ t htmem
        obtain ⟨m', hm', hveq⟩ := sortedVersions_mem c f to_date v hvm
        have hct' := hct m' (List.mem_of_mem_filter hm') ct (hveq ▸ hctm)
        exact edges_version_addCorrEdges _ _ _ (hct'.1 ▸ hs) (hct'.2 ▸ hta) b hb
      · exact edges_version_identityEdges _ _ hvsids DiGraph.empty
          (by intro e hem; exact absurd hem (List.not_mem_nil e))
    rw [h1]
    exact hbase e0 he0
  rw [List.all_eq_true]
  intro n hn
  simp only [decide_eq_true_eq]
  intro hver
  have hmem : n ∈ (build_change_graph c f to_date).edges.flatMap
      (fun e => [e.1.1, e.1.2]) := List.mem_dedup.mp hn
  obtain ⟨e, he, hne⟩ := List.mem_flatMap.mp hmem
  rw [List.mem_cons] at hne
  have hids : n.version ∈ survivingIds c f to_date := by
    rcases hne with h | h
    · rw [h]; exact (hedges e he).1
    · rw [List.mem_singleton.mp h]; exact (hedges e he).2
  obtain ⟨m', hm', hmeq⟩ := List.mem_map.mp hids
  unfold survivingMetas at hm'
  have : m' = m := huniq m' (List.mem_of_mem_filter hm') (by rw [hmeq, hver])
  subst this
  rw [List.mem_filter] at hm'
  rw [hno] at hm'
  exact absurd hm'.2 (by simp)

theorem C5_witness :
    (nodesOf (build_change_graph fixture 20190101 (some 20250101))).all
      (fun n => n.version ≠ 5) = true :=
  C5_no_contribution_outside_window fixture 20190101 (some 20250101)
    ⟨5, 20260101, none⟩ (by decide) (by decide) (by decide) (by decide) (by decide)

/-! ## C1 lemmas: correspondence direction and the fixture mapping -/

theorem hasEdge_addEdge_self (g : DiGraph) (u v : CodePoint) (a : Option CessionType) :
    hasEdge (addEdge g u v a) u v = true := by
  unfold hasEdge addEdge
  by_cases hex : g.edges.any (fun e => e.1 = (u, v)) = true
  · rw [if_pos hex]
    obtain ⟨e0, he0, hp⟩ := List.any_eq_true.mp hex
    refine List.any_eq_true.mpr ⟨((u, v), a), List.mem_map.mpr ⟨e0, he0, ?_⟩, by simp⟩
    rw [if_pos (by simpa using hp)]
  · rw [if_neg hex]
    exact List.any_eq_true.mpr
      ⟨((u, v), a), List.mem_append_right _ (List.mem_singleton.mpr rfl), by simp⟩

theorem hasEdge_addEdge_mono (g : DiGraph) (u v u' v' : CodePoint)
    (a : Option CessionType) (h : hasEdge g u v = true) :
    hasEdge (addEdge g u' v' a) u v = true := by
  unfold hasEdge at h ⊢
  unfold addEdge
  obtain ⟨e0, he0, hp⟩ := List.any_eq_true.mp h
  have hp' : e0.1 = (u, v) := by simpa using hp
  by_cases hex : g.edges.any (fun e => e.1 = (u', v')) = true
  · rw [if_pos hex]
    by_cases h0 : e0.1 = (u', v')
    · refine List.any_eq_true.mpr
        ⟨((u', v'), a), List.mem_map.mpr ⟨e0, he0, by rw [if_pos h0]⟩, ?_⟩
      have : (u', v') = (u, v) := by rw [← h0, hp']
      simp [this]
    · exact List.any_eq_true.mpr ⟨e0, List.mem_map.mpr ⟨e0, he0, by rw [if_neg h0]⟩, hp⟩
  · rw [if_neg hex]
    exact List.any_eq_true.mpr ⟨e0, List.mem_append_left _ he0, hp⟩

/-- C1 counterexample: the fixture query with target in version 4's window
succeeds, but its mapping does not send 1508 to 1580: the claim that every
one of the six codes maps to both 1508 and 1580 fails at old code 1508. -/
theorem C1_counterexample :
    get_klass_change_mapping fixture (some 20240101) none (some 20250101) =
      Except.ok fixtureExpected4 ∧
    ("1508", "1580") ∉ fixtureExpected4 :=
  ⟨rfl, by decide⟩

/-- C1 amended: a collected correspondence table is treated as stored
backwards exactly when the validity start of its declared source version is
strictly later than that of its declared target version; in that case every
edge is added with source and target swapped (edges run from the earlier to
the later version), and rows with a null source or target code are skipped
without effect. Consequently the four-version municipality fixture, queried
with target in version 4's window, maps each of 1504, 1507, 1523 and 1529
to both 1508 and 1580, while 1508 maps only to 1508 and 1580 only to
1580. -/
theorem C1_direction_and_fixture :
    (∀ (sd : Nat → Nat) (g : DiGraph) (t : CorrTable) (row : CorrRow) (s tc : String),
      row ∈ t.correspondence → row.sourceCode = some s → row.targetCode = some tc →
      (sd t.sourceId > sd t.targetId →
        hasEdge (addCorrEdges sd g t) ⟨tc, t.targetId⟩ ⟨s, t.sourceId⟩ = true) ∧
      (¬ sd t.sourceId > sd t.targetId →
        hasEdge (addCorrEdges sd g t) ⟨s, t.sourceId⟩ ⟨tc, t.targetId⟩ = true)) ∧
    (∀ (sd : Nat → Nat) (g : DiGraph) (t : CorrTable),
      addCorrEdges sd g
        (⟨t.sourceId, t.targetId, t.correspondence.filter
            (fun row => row.sourceCode.isSome && row.targetCode.isSome)⟩ : CorrTable) =
        addCorrEdges sd g t) ∧
    (get_klass_change_mapping fixture (some 20240101) none (some 20250101) =
        Except.ok fixtureExpected4 ∧
      (∀ old ∈ (["1504", "1507", "1523", "1529"] : List String),
        (old, "1508") ∈ fixtureExpected4 ∧ (old, "1580") ∈ fixtureExpected4) ∧
      ("1508", "1580") ∉ fixtureExpected4 ∧ ("1580", "1508") ∉ fixtureExpected4) := by
  refine ⟨?_, ?_, rfl, by decide, by decide, by decide⟩
  · intro sd g t row s tc hrow hs htc
    obtain ⟨rs, rt⟩ := row
    simp only at hs htc
    subst hs
    subst htc
    constructor
    · intro hback
      unfold addCorrEdges
      dsimp only
      refine foldl_mem_establish
        (fun b => hasEdge b ⟨tc, t.targetId⟩ ⟨s, t.sourceId⟩ = true) _ ?_ _ ?_
        t.correspondence g hrow
      · intro b row' hb
        obtain ⟨rs', rt'⟩ := row'
        cases rs' with
        | none => exact hb
        | some s' =>
          cases rt' with
          | none => exact hb
          | some tc' =>
            dsimp only
            by_cases hc : sd t.sourceId > sd t.targetId
            · rw [if_pos (decide_eq_true hc)]
              exact hasEdge_addEdge_mono _ _ _ _ _ _ hb
            · rw [if_neg (by simpa using hc)]
              exact hasEdge_addEdge_mono _ _ _ _ _ _ hb
      · intro b
        dsimp only
        rw [if_pos (decide_eq_true hback)]
        exact hasEdge_addEdge_self b _ _ _
    · intro hfwd
      unfold addCorrEdges
      dsimp only
      refine foldl_mem_establish
        (fun b => hasEdge b ⟨s, t.sourceId⟩ ⟨tc, t.targetId⟩ = true) _ ?_ _ ?_
        t.correspondence g hrow
      · intro b row' hb
        obtain ⟨rs', rt'⟩ := row'
        cases rs' with
        | none => exact hb
        | some s' =>
          cases rt' with
          | none => exact hb
          | some tc' =>
            dsimp only
            by_cases hc : sd t.sourceId > sd t.targetId
            · rw [if_pos (decide_eq_true hc)]
              exact hasEdge_addEdge_mono _ _ _ _ _ _ hb
            · rw [if_neg (by simpa using hc)]
              exact hasEdge_addEdge_mono _ _ _ _ _ _ hb
      · intro b
        dsimp only
        rw [if_neg (by simpa using hfwd)]
        exact hasEdge_addEdge_self b _ _ _
  · intro sd g t
    obtain ⟨si, ti, rows⟩ := t
    unfold addCorrEdges
    dsimp only
    refine foldl_filter_eq _ _ ?_ rows g
    intro b row hpf
    obtain ⟨rs, rt⟩ := row
    cases rs with
    | none => rfl
    | some s' =>
      cases rt with
      | none => rfl
      | some tc' => simp at hpf

theorem C1_witness :
    hasEdge
      (addCorrEdges (fun n => n) DiGraph.empty ⟨2, 1, [⟨some "x", some "y"⟩]⟩)
      ⟨"y", 1⟩ ⟨"x", 2⟩ = true :=
  ((C1_direction_and_fixture.1 (fun n => n) DiGraph.empty
    ⟨2, 1, [⟨some "x", some "y"⟩]⟩ ⟨some "x", some "y"⟩ "x" "y"
    (by decide) rfl rfl).1 (by decide))

end SSB
